import Mathlib

/-!
Verification development for the gmail-migrator repository.

This file gives a shallow embedding of the core migration logic:
  * `app/services/gmail/labels.py`   (`GmailLabelsService.get_all_labels`)
  * `app/services/gmail/client.py`   (`get_email_batches`)
  * `app/services/migration/gmail_to_outlook.py`
        (`migrate_labels_to_folders`, `_map_system_label_to_folder`,
         `migrate_emails_by_label`)
  * `app/api/routers/migration.py`   (`update_migration_state`, log ring)
  * `app/utils/rate_limiter.py`      (`RateLimiter.wait`)

External collaborators (the Gmail/Outlook HTTP clients and the async status
callback) are modelled as oracles: functions supplied as parameters whose
results may be normal values (`Except.ok`) or raised exceptions
(`Except.error`).  Python `time.time`/`time.sleep` are modelled as reads of /
advances to an explicit rational-valued clock.  Python dicts used as maps are
modelled as `String → Option String`; Python truthiness of strings/lists is
modelled explicitly (`none`/empty string/empty list are falsy).
-/

namespace GmailMigrator

/-- Exceptions raised by collaborators.  The Python code handles every
exception type through bare `except Exception` clauses, but we keep an
authentication-error constructor distinguishable so that claims about
authentication errors can be stated. -/
inductive Err where
  | auth : Err
  | unavailable : Err
  | other : Err
  deriving DecidableEq, Repr

/-- Python truthiness for an optional string (`if not s:` is taken when the
value is `None` or the empty string). -/
def pyTruthy : Option String → Bool
  | none => false
  | some s => !s.isEmpty

/-- `dict.get` combined with the `if not value:` test used by the source:
returns `some v` only when the stored value is present and non-empty. -/
def pyGet (m : String → Option String) (k : String) : Option String :=
  match m k with
  | none => none
  | some s => if s.isEmpty then none else some s

section PaginationCursor

/-- One response of `GmailClient.get_email_list`: the `messages` batch and the
optional `nextPageToken` (`app/services/gmail/client.py`, lines 229-259).
Message references are identified by their id strings. -/
structure PageResp where
  messages : List String
  next_page_token : Option String
  deriving DecidableEq, Repr

/-- Python falsiness of a page token (`if not page_token: break` fires on
`None` and on the empty string). -/
def tokenFalsy : Option String → Bool
  | none => true
  | some s => s.isEmpty

/-- Shallow embedding of `GmailClient.get_email_batches`
(`app/services/gmail/client.py`, lines 261-291).  The stateful listing stub is
modelled as the script of responses it returns to the successive
`get_email_list` calls; past the end of the script the stub returns an empty
page (which is also what `get_email_list` returns on `HttpError`).  The
generator loops: fetch a page; if `messages` is empty, stop; otherwise yield
the batch and stop after this yield unless a truthy continuation token is
present. -/
def get_email_batches : List PageResp → List (List String)
  | [] => []
  | r :: rest =>
    if r.messages.isEmpty then []
    else
      r.messages ::
        (if tokenFalsy r.next_page_token then [] else get_email_batches rest)

end PaginationCursor

section LabelCatalog

/-- A raw label dict as returned by the Gmail API: `id` and `name` are
accessed with `label["id"]`/`label["name"]`, `type` with `label.get("type")`
(`app/services/gmail/labels.py`, lines 66-79). -/
structure RawLabel where
  id : String
  name : String
  type : Option String
  deriving DecidableEq, Repr

/-- A transformed label `{id, name, type}` with `type ∈ {"system","user"}`,
the shape produced by `get_all_labels` and consumed by the migration
service. -/
structure GLabel where
  id : String
  name : String
  type : String
  deriving DecidableEq, Repr

/-- The per-label transformation in `get_all_labels`: the label is tagged
`"user"` exactly when the raw `type` field equals `"user"`, otherwise
`"system"`. -/
def transformLabel (l : RawLabel) : GLabel :=
  { id := l.id, name := l.name,
    type := if l.type = some "user" then "user" else "system" }

/-- Shallow embedding of `GmailLabelsService.get_all_labels`
(`app/services/gmail/labels.py`, lines 36-92) for a service with an empty
cache.  The collaborator is `svc`: `none` models a missing Gmail service
handle (`if not self.service: return []`), `some (.error e)` models the
listing call raising, and `some (.ok raw)` models a successful listing.  On
the raising path the source logs and returns `[]` (`except Exception: ...
return []`). -/
def get_all_labels (svc : Option (Except Err (List RawLabel))) : List GLabel :=
  match svc with
  | none => []
  | some (.error _) => []
  | some (.ok raw) => raw.map transformLabel

end LabelCatalog

section ProgressRing

/-- The log formatting step of `update_migration_state`
(`app/api/routers/migration.py`, lines 54-61): a timestamp prefix is added
unless the entry already starts with `"["`. -/
def formatLogEntry (ts entry : String) : String :=
  if entry.startsWith "[" then entry else "[" ++ ts ++ "] " ++ entry

/-- The log-ring update of `update_migration_state`
(`app/api/routers/migration.py`, lines 54-67): append the formatted entry,
then if more than 100 entries are stored keep only the last 100
(`migration_state["logs"][-100:]`). -/
def update_migration_state_logs (logs : List String) (ts entry : String) :
    List String :=
  let logs1 := logs ++ [formatLogEntry ts entry]
  if 100 < logs1.length then logs1.drop (logs1.length - 100) else logs1

/-- Applying a sequence of log-carrying state updates, each given as a
(timestamp, log line) pair, to the stored log list. -/
def applyLogUpdates (updates : List (String × String)) (logs : List String) :
    List String :=
  updates.foldl (fun acc u => update_migration_state_logs acc u.1 u.2) logs

/-- The last `n` elements of a list. -/
def lastN (n : Nat) (l : List α) : List α := l.drop (l.length - n)

end ProgressRing

section Reconciliation

/-- An Outlook mail folder `{id, displayName}` as returned by
`outlook_client.get_folders()`. -/
structure OFolder where
  id : String
  displayName : String
  deriving DecidableEq, Repr

/-- The destination (Outlook) folder state: the current folder list plus a
counter used to mint fresh ids for folders created by
`outlook_client.create_folder`. -/
structure OutlookSt where
  folders : List OFolder
  nextId : Nat
  deriving DecidableEq, Repr

/-- Fresh folder id minted for the `n`-th created folder. -/
def newFolderId (n : Nat) : String := "created-" ++ toString n

/-- A label-id → folder-id mapping (`self.folder_mapping`, a Python dict). -/
def FMap : Type := String → Option String

/-- Writing one dict entry (`folder_mapping[gmail_id] = folder_id`). -/
def mupd (m : FMap) (k v : String) : FMap :=
  fun x => if x = k then some v else m x

/-- The fixed seven-entry `system_mapping` dict of
`_map_system_label_to_folder` (`gmail_to_outlook.py`, lines 153-161),
modelled as the lookup `system_mapping.get(gmail_label)`. -/
def systemMapping (gmail_label : String) : Option String :=
  if gmail_label = "INBOX" then some "Inbox"
  else if gmail_label = "SENT" then some "Sent Items"
  else if gmail_label = "DRAFT" then some "Drafts"
  else if gmail_label = "TRASH" then some "Deleted Items"
  else if gmail_label = "SPAM" then some "Junk Email"
  else if gmail_label = "IMPORTANT" then some "Important"
  else if gmail_label = "STARRED" then some "Favorites"
  else none

/-- The display names occurring as values of `system_mapping`. -/
def systemDisplayNames : List String :=
  ["Inbox", "Sent Items", "Drafts", "Deleted Items", "Junk Email",
   "Important", "Favorites"]

/-- Shallow embedding of
`GmailToOutlookMigrationService._map_system_label_to_folder`
(`gmail_to_outlook.py`, lines 139-172): translate the Gmail system label name
through `system_mapping`, then return the id of the first Outlook folder
whose `displayName` equals the translated name exactly; `none` when the name
is not in the table or no folder matches. -/
def _map_system_label_to_folder (gmail_label : String)
    (outlook_folders : List OFolder) : Option String :=
  match systemMapping gmail_label with
  | none => none
  | some outlook_name =>
    (outlook_folders.find? (fun f => f.displayName = outlook_name)).map (·.id)

/-- The system-label loop of `migrate_labels_to_folders`
(`gmail_to_outlook.py`, lines 84-102): for each system label in order, write
a mapping entry only when the id returned by `_map_system_label_to_folder`
is Python-truthy (`if outlook_folder_id:`, line 93) — a `None` result and an
empty-string id alike only log a warning. -/
def processSystemLabels (outlook_folders : List OFolder) :
    List GLabel → FMap → FMap
  | [], m => m
  | label :: rest, m =>
    match _map_system_label_to_folder label.name outlook_folders with
    | some fid =>
      if fid.isEmpty then processSystemLabels outlook_folders rest m
      else processSystemLabels outlook_folders rest (mupd m label.id fid)
    | none => processSystemLabels outlook_folders rest m

/-- Mutable state of the user-label loop of `migrate_labels_to_folders`:
the mapping, the `existing_folder_names` set, the destination state, and a
count of `create_folder` invocations (successful or not). -/
structure UserLoopSt where
  m : FMap
  existing : List String
  ost : OutlookSt
  creates : Nat

/-- One iteration of the user-label loop of `migrate_labels_to_folders`
(`gmail_to_outlook.py`, lines 104-133).  `outlook_folders` is the folder
snapshot taken before the loop — the source searches this (stale) list when
the name is in `existing_folder_names`, and otherwise calls `create_folder`;
a creation failure (`createFails`) is caught, logged, and leaves the label
unmapped. -/
def processUserLabel (createFails : String → Bool)
    (outlook_folders : List OFolder) (s : UserLoopSt) (label : GLabel) :
    UserLoopSt :=
  if label.name ∈ s.existing then
    match outlook_folders.find? (fun f => f.displayName = label.name) with
    | some f => { s with m := mupd s.m label.id f.id }
    | none => s
  else
    if createFails label.name then
      { s with creates := s.creates + 1 }
    else
      let nf : OFolder := ⟨newFolderId s.ost.nextId, label.name⟩
      { m := mupd s.m label.id nf.id,
        existing := s.existing ++ [label.name],
        ost := ⟨s.ost.folders ++ [nf], s.ost.nextId + 1⟩,
        creates := s.creates + 1 }

/-- The user-label loop of `migrate_labels_to_folders` (`gmail_to_outlook.py`,
lines 104-133): process the user labels in order. -/
def processUserLabels (createFails : String → Bool)
    (outlook_folders : List OFolder) : List GLabel → UserLoopSt → UserLoopSt
  | [], s => s
  | label :: rest, s =>
    processUserLabels createFails outlook_folders rest
      (processUserLabel createFails outlook_folders s label)

/-- Shallow embedding of
`GmailToOutlookMigrationService.migrate_labels_to_folders`
(`gmail_to_outlook.py`, lines 54-137) for a fixed label snapshot `labels`
(the memoized result of `GmailLabelsService.get_all_labels`).
`outlook_client.get_folders()` reads the current destination state `ost`;
returns the built mapping, the destination state after any folder creations,
and the number of `create_folder` invocations. -/
def migrate_labels_to_folders (createFails : String → Bool)
    (labels : List GLabel) (ost : OutlookSt) : FMap × OutlookSt × Nat :=
  let system_labels := labels.filter (fun l => l.type = "system")
  let user_labels := labels.filter (fun l => l.type = "user")
  let outlook_folders := ost.folders
  let existing_folder_names := outlook_folders.map (·.displayName)
  let m1 := processSystemLabels outlook_folders system_labels (fun _ => none)
  let final :=
    processUserLabels createFails outlook_folders user_labels
      ⟨m1, existing_folder_names, ost, 0⟩
  (final.m, final.ost, final.creates)

end Reconciliation

section PerLabelMigration

/-- A Gmail email as handled by the per-label loop; only its id is relevant
to the migration result (`email.get("id")`). -/
structure Email where
  id : String
  deriving DecidableEq, Repr

/-- The shape of the dict returned by `migrate_emails_by_label`
(`gmail_to_outlook.py`, lines 205, 216, 246, 314-319, 323): exactly the keys
`total`, `successful`, `failed`, `failed_ids`. -/
structure MigrationResult where
  total : Nat
  successful : Nat
  failed : Nat
  failed_ids : List String
  deriving DecidableEq, Repr

/-- The zero result `{"total": 0, "successful": 0, "failed": 0,
"failed_ids": []}`. -/
def zeroResult : MigrationResult := ⟨0, 0, 0, []⟩

/-- Observable events of one `migrate_emails_by_label` call: an invocation of
`migrate_labels_to_folders`, of `gmail_client.get_emails_with_labels`, of
`gmail_client.list_labels`, of `outlook_client.migrate_email` on the email
with the given id, or the `n`-th invocation of the status callback. -/
inductive Ev where
  | reconcile : Ev
  | listEmails : Ev
  | listLabels : Ev
  | migrateEmail : String → Ev
  | callback : Nat → Ev
  deriving DecidableEq, Repr

/-- Whether an event is an `outlook_client.migrate_email` invocation. -/
def isMigrateEv : Ev → Bool
  | .migrateEmail _ => true
  | _ => false

/-- The collaborators of `migrate_emails_by_label`, as oracles.
`mapping0` is `self.folder_mapping` at entry; `reconcile` is the behaviour of
`self.migrate_labels_to_folders()` (raising, or succeeding and installing a
new mapping); `listEmails` is `gmail_client.get_emails_with_labels`;
`listLabels` is `gmail_client.list_labels`; `migrateEmail` gives the outcome
of `outlook_client.migrate_email` on each email; `callback`, when set, gives
the outcome of the `n`-th invocation of `self.update_status_callback`. -/
structure Behavior where
  mapping0 : String → Option String
  reconcile : Except Err (String → Option String)
  listEmails : Except Err (List Email)
  listLabels : Except Err (List (String × String))
  migrateEmail : Email → Except Err Unit
  callback : Option (Nat → Except Err Unit)

/-- Mutable state threaded through the per-email loop: the `successful` and
`failed` counters, the `failed_ids` list, the number of status-callback
invocations so far, and the event trace. -/
structure LoopSt where
  succ : Nat
  fail : Nat
  failedIds : List String
  cb : Nat
  trace : List Ev

/-- One `if self.update_status_callback: await self.update_status_callback(...)`
site: when a callback is set it is invoked (recorded in the trace with its
sequence number) and may raise; when unset nothing happens. -/
def runCb (b : Behavior) (st : LoopSt) : LoopSt × Except Err Unit :=
  match b.callback with
  | none => (st, .ok ())
  | some f =>
    ({ st with cb := st.cb + 1, trace := st.trace ++ [.callback st.cb] },
     f st.cb)

/-- One iteration of the per-email loop of `migrate_emails_by_label`
(`gmail_to_outlook.py`, lines 253-311): the pre-update callback (outside the
per-message `try`), then `outlook_client.migrate_email` inside `try`; on
success increment `successful` and run the progress callback (still inside
the `try`, so a raise from it falls into the `except` branch); the `except`
branch increments `failed`, appends the email id to `failed_ids`, and runs
the failure callback (whose own raise escapes the loop).  The returned
`Except` is `.error` exactly when an exception escapes this iteration. -/
def stepEmail (b : Behavior) (email : Email) (st : LoopSt) :
    LoopSt × Except Err Unit :=
  let (st1, r1) := runCb b st
  match r1 with
  | .error e => (st1, .error e)
  | .ok () =>
    let st2 := { st1 with trace := st1.trace ++ [Ev.migrateEmail email.id] }
    match b.migrateEmail email with
    | .ok () =>
      let st3 := { st2 with succ := st2.succ + 1 }
      let (st4, r4) := runCb b st3
      match r4 with
      | .ok () => (st4, .ok ())
      | .error _ =>
        let st5 := { st4 with fail := st4.fail + 1,
                              failedIds := st4.failedIds ++ [email.id] }
        runCb b st5
    | .error _ =>
      let st3 := { st2 with fail := st2.fail + 1,
                            failedIds := st2.failedIds ++ [email.id] }
      runCb b st3

/-- The per-email loop (`for i, email in enumerate(emails)`): run the
iterations in order; an exception escaping one iteration aborts the loop. -/
def migrateLoop (b : Behavior) : List Email → LoopSt → LoopSt × Except Err Unit
  | [], st => (st, .ok ())
  | e :: rest, st =>
    match stepEmail b e st with
    | (st1, .ok ()) => migrateLoop b rest st1
    | (st1, .error err) => (st1, .error err)

/-- The part of `migrate_emails_by_label` after the folder id has been
resolved (`gmail_to_outlook.py`, lines 207-319): the inner `try` (lines
208-246) — list emails with the label (zero result on empty result or on a
raise, via the `except` at line 244), look the label name up via
`list_labels` with errors swallowed (lines 222-229), run the label-info
status callback (lines 232-242, still inside the inner `try`) — then the
per-email loop and the final result dict.  `tr0` is the event trace so far;
the `Except.error` outcome models an exception escaping to the outermost
handler. -/
def migrateBodyListed (b : Behavior) (labelId : String) (tr0 : List Ev) :
    Except Err MigrationResult × List Ev :=
  let tr1 := tr0 ++ [Ev.listEmails]
  match b.listEmails with
  | .error _ => (.ok zeroResult, tr1)
  | .ok emails =>
    if emails.isEmpty then (.ok zeroResult, tr1)
    else
      let tr2 := tr1 ++ [Ev.listLabels]
      let _label_name :=
        match b.listLabels with
        | .ok ls => ((ls.find? (fun p : String × String =>
            p.1 = labelId)).map (fun p : String × String => p.2)).getD
            "Unknown"
        | .error _ => "Unknown"
      match runCb b ⟨0, 0, [], 0, tr2⟩ with
      | (st0, .error _) => (.ok zeroResult, st0.trace)
      | (st0, .ok ()) =>
        match migrateLoop b emails st0 with
        | (stF, .ok ()) =>
          (.ok { total := emails.length, successful := stF.succ,
                 failed := stF.fail, failed_ids := stF.failedIds },
           stF.trace)
        | (stF, .error e) => (.error e, stF.trace)

/-- The body of `migrate_emails_by_label` inside its outermost `try`
(`gmail_to_outlook.py`, lines 187-319): resolve the folder id from
`self.folder_mapping` (re-running `migrate_labels_to_folders` once if
unmapped, and returning the zero result if still unmapped, lines 189-205);
then continue with `migrateBodyListed`. -/
def migrateBody (b : Behavior) (labelId : String) :
    Except Err MigrationResult × List Ev :=
  match pyGet b.mapping0 labelId with
  | some _fid => migrateBodyListed b labelId []
  | none =>
    match b.reconcile with
    | .error e => (.error e, [Ev.reconcile])
    | .ok m2 =>
      match pyGet m2 labelId with
      | none => (.ok zeroResult, [Ev.reconcile])
      | some _fid => migrateBodyListed b labelId [Ev.reconcile]

/-- Shallow embedding of
`GmailToOutlookMigrationService.migrate_emails_by_label`
(`gmail_to_outlook.py`, lines 174-323): the whole body runs under
`try: ... except Exception: return zeroResult`, so every escaping exception
is converted to the zero result and the function always returns a
`MigrationResult` together with the trace of collaborator invocations. -/
def migrate_emails_by_label (b : Behavior) (labelId : String) :
    MigrationResult × List Ev :=
  match migrateBody b labelId with
  | (.ok r, tr) => (r, tr)
  | (.error _, tr) => (zeroResult, tr)

/-- The status callback never raises (in particular, an unset callback). -/
def cbBenign (b : Behavior) : Prop :=
  ∀ f, b.callback = some f → ∀ n, f n = .ok ()

/-- Whether a collaborator call outcome is a raise. -/
def isErrE : Except Err Unit → Bool
  | .ok _ => false
  | .error _ => true

end PerLabelMigration

section RateLimiterModel

/-- `RateLimiter` state (`app/utils/rate_limiter.py`, lines 20-33): the
configuration and the deque of recorded call timestamps (front = oldest). -/
structure RateLimiter where
  max_calls : Nat
  period : ℚ
  calls : List ℚ
  deriving DecidableEq, Repr

/-- `RateLimiter._cleanup_old_calls` (`app/utils/rate_limiter.py`, lines
35-47): pop from the front while the oldest timestamp is strictly older than
`current_time - period`. -/
def RateLimiter.cleanup_old_calls (rl : RateLimiter) (current_time : ℚ) :
    RateLimiter :=
  { rl with calls := rl.calls.dropWhile (fun t => t < current_time - rl.period) }

/-- Shallow embedding of `RateLimiter.wait` (`app/utils/rate_limiter.py`,
lines 49-72) over an abstract clock: `time.time()` reads the clock and
`time.sleep(d)` advances it by exactly `d`.  When the purged window is full
the source reads `self.calls[0]` (non-empty there whenever `max_calls ≥ 1`;
we use `headD 0` for that unguarded index).  `MAX_REQUEST_WAIT_TIME = 60`. -/
def RateLimiter.wait (rl : RateLimiter) (clock : ℚ) : RateLimiter × ℚ :=
  let current_time := clock
  let rl1 := rl.cleanup_old_calls current_time
  if rl1.max_calls ≤ rl1.calls.length then
    let oldest_call := rl1.calls.headD 0
    let wait_time := oldest_call + rl1.period - current_time
    if 0 < wait_time then
      let actual_wait := min wait_time 60
      let clock2 := clock + actual_wait
      let rl2 := rl1.cleanup_old_calls clock2
      ({ rl2 with calls := rl2.calls ++ [clock2] }, clock2)
    else
      ({ rl1 with calls := rl1.calls ++ [current_time] }, clock)
  else
    ({ rl1 with calls := rl1.calls ++ [current_time] }, clock)

/-- `n` consecutive `wait()` acquisitions. -/
def RateLimiter.waitN : Nat → RateLimiter × ℚ → RateLimiter × ℚ
  | 0, s => s
  | n + 1, s => RateLimiter.waitN n (RateLimiter.wait s.1 s.2)

end RateLimiterModel

/-! ## General helper lemmas -/

theorem find?_append_some {l1 l2 : List α} {p : α → Bool} {x : α}
    (h : l1.find? p = some x) : (l1 ++ l2).find? p = some x := by
  induction l1 with
  | nil => simp [List.find?] at h
  | cons a rest ih =>
    by_cases hp : p a
    · simpa [List.find?_cons, hp] using h
    · simp only [List.find?_cons, hp] at h
      simpa [List.find?_cons, hp] using ih h

theorem find?_append_none {l1 l2 : List α} {p : α → Bool}
    (h : l1.find? p = none) : (l1 ++ l2).find? p = l2.find? p := by
  induction l1 with
  | nil => simp
  | cons a rest ih =>
    by_cases hp : p a
    · simp [List.find?_cons, hp] at h
    · simp only [List.find?_cons, hp] at h
      simpa [List.find?_cons, hp] using ih h

/-! ## C3 — Pagination termination -/

/-- C3: given a listing stub whose script is `maxPages` non-empty batches,
each accompanied by a truthy continuation token, followed by one empty batch,
`get_email_batches` yields exactly those batches in order and then stops. -/
theorem get_email_batches_termination
    (batches : List (List String)) (toks : List String)
    (hlen : toks.length = batches.length)
    (hne : ∀ b ∈ batches, b ≠ [])
    (htok : ∀ t ∈ toks, ¬t.isEmpty) :
    get_email_batches
      (List.zipWith (fun b t => PageResp.mk b (some t)) batches toks
        ++ [⟨[], none⟩]) = batches := by
  induction batches generalizing toks with
  | nil => simp [get_email_batches]
  | cons b bs ih =>
    cases toks with
    | nil => simp at hlen
    | cons t ts =>
      have hbne : b ≠ [] := hne b (by simp)
      have hbne' : b.isEmpty = false := by
        cases b with
        | nil => exact absurd rfl hbne
        | cons x xs => rfl
      have htne : t.isEmpty = false := by
        have := htok t (by simp)
        exact Bool.eq_false_iff.mpr this
      simp only [List.zipWith_cons_cons, List.cons_append, get_email_batches,
        hbne', Bool.false_eq_true, if_false, tokenFalsy, htne]
      have := ih ts (by simpa using hlen) (fun x hx => hne x (by simp [hx]))
        (fun x hx => htok x (by simp [hx]))
      simp [this]

/-- C3 witness: a concrete two-page script. -/
theorem get_email_batches_termination_witness :
    get_email_batches
      (List.zipWith (fun b t => PageResp.mk b (some t)) [["a"], ["b", "c"]]
        ["t1", "t2"] ++ [⟨[], none⟩]) = [["a"], ["b", "c"]] :=
  get_email_batches_termination [["a"], ["b", "c"]] ["t1", "t2"]
    (by decide) (by decide) (by decide)

/-! ## C7 — Catalog failure surfacing -/

/-- C7 counterexample: when the listing call raises — whether a retryable
service-unavailable error or a fatal authentication error — `get_all_labels`
returns the empty list instead of surfacing the error; the two failure kinds
are indistinguishable to the caller. -/
theorem get_all_labels_silent_empty_cex :
    get_all_labels (some (.error Err.unavailable)) = []
    ∧ get_all_labels (some (.error Err.auth)) = [] :=
  ⟨rfl, rfl⟩

/-- C7 amended: `get_all_labels` never surfaces a listing failure: it
returns `[]` when the Gmail service handle is missing and when the listing
call raises, for every error kind alike, and returns the transformed labels
on success. -/
theorem get_all_labels_swallows_errors :
    get_all_labels none = []
    ∧ (∀ e : Err, get_all_labels (some (.error e)) = [])
    ∧ ∀ raw, get_all_labels (some (.ok raw)) = raw.map transformLabel :=
  ⟨rfl, fun _ => rfl, fun _ => rfl⟩

/-! ## C8 — Progress log ring bound -/

theorem update_logs_lastN (xs : List String) (ts e : String) :
    update_migration_state_logs (lastN 100 xs) ts e
      = lastN 100 (xs ++ [formatLogEntry ts e]) := by
  unfold update_migration_state_logs lastN
  rcases Nat.lt_or_ge xs.length 100 with hlt | hge
  · have h0 : xs.length - 100 = 0 := by omega
    have h1 : xs.length + 1 - 100 = 0 := by omega
    simp only [h0, List.drop_zero, List.length_append, List.length_cons,
      List.length_nil, List.length_drop]
    have : ¬(100 < xs.length + (0 + 1)) := by omega
    simp [this, h1]
  · have hlen : (xs.drop (xs.length - 100)).length = 100 := by
      rw [List.length_drop]; omega
    have hcond : 100 <
        (xs.drop (xs.length - 100) ++ [formatLogEntry ts e]).length := by
      rw [List.length_append, hlen]; simp
    have hdrop1 : (xs.drop (xs.length - 100) ++ [formatLogEntry ts e]).drop 1
        = xs.drop (xs.length - 100 + 1) ++ [formatLogEntry ts e] := by
      rw [List.drop_append_of_le_length (by omega), List.drop_drop]
    rw [if_pos hcond]
    have e1 : (xs.drop (xs.length - 100) ++ [formatLogEntry ts e]).length
        - 100 = 1 := by
      rw [List.length_append, hlen]; rfl
    rw [e1, hdrop1]
    have e2 : (xs ++ [formatLogEntry ts e]).length - 100
        = xs.length - 100 + 1 := by
      rw [List.length_append]; simp; omega
    rw [e2, List.drop_append_of_le_length (by omega)]

theorem applyLogUpdates_lastN (updates : List (String × String)) :
    ∀ xs : List String,
      applyLogUpdates updates (lastN 100 xs)
        = lastN 100 (xs ++ updates.map (fun u => formatLogEntry u.1 u.2)) := by
  induction updates with
  | nil => intro xs; simp [applyLogUpdates]
  | cons u us ih =>
    intro xs
    show applyLogUpdates us
        (update_migration_state_logs (lastN 100 xs) u.1 u.2) = _
    rw [update_logs_lastN, ih (xs ++ [formatLogEntry u.1 u.2])]
    simp

/-- C8: applying 150 log-carrying state updates to an initially empty log
list leaves exactly the 100 most recently appended formatted entries, in
arrival order. -/
theorem update_migration_state_ring_bound (updates : List (String × String))
    (h : updates.length = 150) :
    applyLogUpdates updates []
      = (updates.map (fun u => formatLogEntry u.1 u.2)).drop 50
    ∧ (applyLogUpdates updates []).length = 100 := by
  have h0 : ([] : List String) = lastN 100 [] := rfl
  have := applyLogUpdates_lastN updates []
  rw [h0, this]
  unfold lastN
  constructor
  · simp [h]
  · simp [List.length_drop, h]

/-- C8 witness: 150 identical updates. -/
theorem update_migration_state_ring_bound_witness :
    applyLogUpdates (List.replicate 150 ("00:00:00", "step")) []
      = ((List.replicate 150 ("00:00:00", "step")).map
          (fun u => formatLogEntry u.1 u.2)).drop 50
    ∧ (applyLogUpdates (List.replicate 150 ("00:00:00", "step")) []).length
        = 100 :=
  update_migration_state_ring_bound _ (by simp)

/-! ## C9 — Rate limiter queuing bound -/

/-- C9 counterexample: with `max_calls = 1` and `period = 120`, two
consecutive acquisitions on a fresh limiter advance the abstract clock by
only `min(wait, 60) = 60`, strictly less than the claimed bound
`k * period / max_calls = 120` (for `k = 1`). -/
theorem rate_limiter_wait_cap_cex :
    (RateLimiter.waitN 2 (⟨1, 120, []⟩, 0)).2 = 60
    ∧ ¬((1 * 120 / 1 : ℚ) ≤ (RateLimiter.waitN 2 (⟨1, 120, []⟩, 0)).2) := by
  have h : (RateLimiter.waitN 2 (⟨1, 120, []⟩, 0)).2 = 60 := by
    show (RateLimiter.waitN 1 (RateLimiter.wait ⟨1, 120, []⟩ 0)).2 = 60
    have h1 : RateLimiter.wait ⟨1, 120, []⟩ 0 = (⟨1, 120, [0]⟩, 0) := by
      simp [RateLimiter.wait, RateLimiter.cleanup_old_calls]
    rw [h1]
    show (RateLimiter.wait ⟨1, 120, [0]⟩ 0).2 = 60
    have hdw : (([0] : List ℚ).dropWhile (fun t => t < 0 - 120)) = [0] := by
      norm_num [List.dropWhile]
    simp only [RateLimiter.wait, RateLimiter.cleanup_old_calls, hdw]
    norm_num [min_def, List.dropWhile]
  refine ⟨h, ?_⟩
  rw [h]; norm_num

/-- The clock evolution once the window stays full: each acquisition moves
the clock from `c` to `min (c + 60) period`. -/
def clockIter (period : ℚ) : Nat → ℚ → ℚ
  | 0, c => c
  | k + 1, c => clockIter period k (min (c + 60) period)

theorem dropWhile_replicate_off {p : ℚ → Bool} {a : ℚ} (h : p a = false)
    (n : Nat) : (List.replicate n a).dropWhile p = List.replicate n a := by
  cases n with
  | zero => rfl
  | succ m => simp [List.replicate_succ, List.dropWhile_cons, h]

theorem waitN_warmup (mc : Nat) (period : ℚ) (hp : 0 < period) :
    ∀ j i, i + j ≤ mc →
      RateLimiter.waitN j (⟨mc, period, List.replicate i 0⟩, 0)
        = (⟨mc, period, List.replicate (i + j) 0⟩, 0) := by
  intro j
  induction j with
  | zero => intro i _; rfl
  | succ m ih =>
    intro i hle
    show RateLimiter.waitN m
        (RateLimiter.wait ⟨mc, period, List.replicate i 0⟩ 0) = _
    have hw : RateLimiter.wait ⟨mc, period, List.replicate i 0⟩ 0
        = (⟨mc, period, List.replicate (i + 1) 0⟩, 0) := by
      have hdw : (List.replicate i (0 : ℚ)).dropWhile
          (fun t => t < 0 - period) = List.replicate i 0 :=
        dropWhile_replicate_off (by simp; linarith) i
      have hlen : ¬(mc ≤ (List.replicate i (0 : ℚ)).length) := by
        simp [List.length_replicate]; omega
      simp only [RateLimiter.wait, RateLimiter.cleanup_old_calls, hdw]
      rw [if_neg (by simpa using hlen)]
      simp [List.replicate_succ']
    rw [hw]
    have hthis := ih (i + 1) (by omega)
    have hidx : i + 1 + m = i + (m + 1) := by omega
    rw [hidx] at hthis
    exact hthis

theorem wait_full (mc : Nat) (period : ℚ) (hp : 0 < period)
    (tail : List ℚ) (c : ℚ) (hc0 : 0 ≤ c) (hcp : c ≤ period)
    (hlen : mc ≤ tail.length + 1) :
    RateLimiter.wait ⟨mc, period, 0 :: tail⟩ c
      = (⟨mc, period, (0 :: tail) ++ [min (c + 60) period]⟩,
         min (c + 60) period) := by
  have hdw : ((0 : ℚ) :: tail).dropWhile (fun t => t < c - period)
      = 0 :: tail := by
    rw [List.dropWhile_cons]
    simp only [decide_eq_true_eq]
    rw [if_neg (by linarith)]
  rcases lt_or_eq_of_le hcp with hlt | heq
  · -- c < period: the window is full, the limiter sleeps min(period - c, 60)
    have hwt : (0 : ℚ) < 0 + period - c := by linarith
    have hclock : c + min (0 + period - c) 60 = min (c + 60) period := by
      rw [min_comm (c + 60) period]
      have h := min_add_add_left c (0 + period - c) 60
      rw [← h]; ring_nf
    have hdw2 : ((0 : ℚ) :: tail).dropWhile
        (fun t => t < min (c + 60) period - period) = 0 :: tail := by
      rw [List.dropWhile_cons]
      simp only [decide_eq_true_eq]
      rw [if_neg (by
        have h := min_le_right (c + 60) period
        linarith)]
    simp only [RateLimiter.wait, RateLimiter.cleanup_old_calls, hdw]
    rw [if_pos (by simpa using hlen)]
    simp only [List.headD_cons]
    rw [if_pos hwt]
    simp only [hclock]
    rw [hdw2]
  · -- c = period: wait_time = 0, no sleep, and min (c + 60) period = c
    have hwt : ¬((0 : ℚ) < 0 + period - c) := by rw [← heq]; simp
    have hmin : min (c + 60) period = c := by
      rw [← heq]; exact min_eq_right (by linarith)
    simp only [RateLimiter.wait, RateLimiter.cleanup_old_calls, hdw]
    rw [if_pos (by simpa using hlen)]
    simp only [List.headD_cons]
    rw [if_neg hwt, hmin]

theorem waitN_full (mc : Nat) (period : ℚ) (hp : 0 < period) :
    ∀ (k : Nat) (tail : List ℚ) (c : ℚ), 0 ≤ c → c ≤ period →
      mc ≤ tail.length + 1 →
      ∃ tail2 : List ℚ,
        RateLimiter.waitN k (⟨mc, period, 0 :: tail⟩, c)
          = (⟨mc, period, 0 :: tail2⟩, clockIter period k c) := by
  intro k
  induction k with
  | zero => intro tail c _ _ _; exact ⟨tail, rfl⟩
  | succ m ih =>
    intro tail c hc0 hcp hlen
    show ∃ tail2, RateLimiter.waitN m
        (RateLimiter.wait ⟨mc, period, 0 :: tail⟩ c) = _
    rw [wait_full mc period hp tail c hc0 hcp hlen]
    have hc0' : 0 ≤ min (c + 60) period := le_min (by linarith) (le_of_lt hp)
    have hcp' : min (c + 60) period ≤ period := min_le_right _ _
    have hlen' : mc ≤ (tail ++ [min (c + 60) period]).length + 1 := by
      rw [List.length_append]; simp; omega
    obtain ⟨tail2, h2⟩ := ih (tail ++ [min (c + 60) period])
      (min (c + 60) period) hc0' hcp' hlen'
    refine ⟨tail2, ?_⟩
    show RateLimiter.waitN m
        (⟨mc, period, (0 :: tail) ++ [min (c + 60) period]⟩,
          min (c + 60) period) = _
    rw [List.cons_append, h2]
    rfl

theorem clockIter_formula (period : ℚ) (hp : 0 < period) :
    ∀ (k : Nat) (c : ℚ), 0 ≤ c → c ≤ period →
      clockIter period k c = min (c + 60 * k) period := by
  intro k
  induction k with
  | zero =>
    intro c _ hcp
    simp [clockIter, min_eq_left hcp]
  | succ m ih =>
    intro c hc0 hcp
    show clockIter period m (min (c + 60) period) = _
    have hc0' : 0 ≤ min (c + 60) period := le_min (by linarith) (le_of_lt hp)
    have hcp' : min (c + 60) period ≤ period := min_le_right _ _
    rw [ih (min (c + 60) period) hc0' hcp']
    rcases le_total (c + 60) period with hle | hge
    · rw [min_eq_left hle]
      congr 1
      push_cast
      ring
    · have h60 : (0 : ℚ) ≤ 60 * (m : ℚ) := by positivity
      rw [min_eq_right hge, min_eq_right (le_add_of_nonneg_right h60),
        min_eq_right (by push_cast; linarith)]

theorem waitN_add (a b : Nat) : ∀ s : RateLimiter × ℚ,
    RateLimiter.waitN (a + b) s
      = RateLimiter.waitN b (RateLimiter.waitN a s) := by
  induction a with
  | zero => intro s; simp [RateLimiter.waitN, Nat.zero_add]
  | succ m ih =>
    intro s
    have h1 : m + 1 + b = (m + b) + 1 := by omega
    rw [h1]
    show RateLimiter.waitN (m + b) (RateLimiter.wait s.1 s.2) = _
    rw [ih (RateLimiter.wait s.1 s.2)]
    rfl

/-- C9 amended: over the abstract clock, `max_calls + k` consecutive
acquisitions on a fresh limiter advance the clock by exactly
`min (60 * k) period`: each sleep is capped at `MAX_REQUEST_WAIT_TIME = 60`
seconds, and timestamps lying exactly on the window boundary are never
purged (the purge uses a strict comparison), so the clock climbs in 60-second
steps and saturates at `period`.  The claimed lower bound
`k * period / max_calls` therefore fails, e.g. for
`max_calls = 1, period = 120, k = 1`. -/
theorem rate_limiter_clock_exact (mc : Nat) (hmc : 1 ≤ mc) (period : ℚ)
    (hp : 0 < period) (k : Nat) :
    (RateLimiter.waitN (mc + k) (⟨mc, period, []⟩, 0)).2
      = min ((60 : ℚ) * k) period := by
  obtain ⟨m, rfl⟩ : ∃ m, mc = m + 1 :=
    ⟨mc - 1, (Nat.succ_pred_eq_of_pos hmc).symm⟩
  rw [waitN_add]
  have hwarm : RateLimiter.waitN (m + 1) (⟨m + 1, period, []⟩, 0)
      = (⟨m + 1, period, List.replicate (m + 1) 0⟩, 0) := by
    have h := waitN_warmup (m + 1) period hp (m + 1) 0 (by omega)
    simpa using h
  rw [hwarm]
  have hrep : List.replicate (m + 1) (0 : ℚ) = 0 :: List.replicate m 0 := by
    simp [List.replicate_succ]
  rw [hrep]
  obtain ⟨tail2, h2⟩ := waitN_full (m + 1) period hp k (List.replicate m 0) 0
    le_rfl (le_of_lt hp) (by simp)
  rw [h2]
  show clockIter period k 0 = _
  rw [clockIter_formula period hp k 0 le_rfl (le_of_lt hp), zero_add]

/-- C9 amended witness: `max_calls = 1, period = 120, k = 1` — the clock
advances by `min 60 120 = 60`. -/
theorem rate_limiter_clock_exact_witness :
    (RateLimiter.waitN (1 + 1) (⟨1, 120, []⟩, 0)).2
      = min ((60 : ℚ) * (1 : Nat)) (120 : ℚ) :=
  rate_limiter_clock_exact 1 le_rfl 120 (by norm_num) 1

/-! ## Per-email loop lemmas -/

/-- The id recorded in `failed_ids` when this email's transfer raises. -/
def failId (b : Behavior) (e : Email) : Option String :=
  if isErrE (b.migrateEmail e) then some e.id else none

theorem runCb_preserves (b : Behavior) (st : LoopSt) :
    (runCb b st).1.succ = st.succ ∧ (runCb b st).1.fail = st.fail ∧
    (runCb b st).1.failedIds = st.failedIds ∧
    (runCb b st).1.trace.filter isMigrateEv
      = st.trace.filter isMigrateEv := by
  cases h : b.callback with
  | none => simp [runCb, h]
  | some f => simp [runCb, h, List.filter_append, isMigrateEv]

theorem runCb_ok (b : Behavior) (hcb : cbBenign b) (st : LoopSt) :
    (runCb b st).2 = .ok () := by
  cases h : b.callback with
  | none => simp [runCb, h]
  | some f => simp [runCb, h, hcb f h st.cb]

theorem stepEmail_ids_len (b : Behavior) (e : Email) (st : LoopSt)
    (h : st.failedIds.length = st.fail) :
    (stepEmail b e st).1.failedIds.length = (stepEmail b e st).1.fail := by
  cases hc : b.callback with
  | none =>
    simp only [stepEmail, runCb, hc]
    cases hme : b.migrateEmail e with
    | ok u => cases u; simpa using h
    | error err => simp [h]
  | some f =>
    simp only [stepEmail, runCb, hc]
    cases hf1 : f st.cb with
    | error e1 => simpa using h
    | ok u =>
      cases u
      cases hme : b.migrateEmail e with
      | ok v =>
        cases v
        cases hf2 : f (st.cb + 1) with
        | ok w => cases w; simpa using h
        | error e2 => simp [h]
      | error w => simp [h]

theorem migrateLoop_ids_len (b : Behavior) :
    ∀ (emails : List Email) (st : LoopSt),
      st.failedIds.length = st.fail →
      (migrateLoop b emails st).1.failedIds.length
        = (migrateLoop b emails st).1.fail := by
  intro emails
  induction emails with
  | nil => intro st h; simpa [migrateLoop] using h
  | cons e rest ih =>
    intro st h
    have hstep := stepEmail_ids_len b e st h
    rcases hse : stepEmail b e st with ⟨st1, r1⟩
    rw [hse] at hstep
    simp only [migrateLoop, hse]
    cases r1 with
    | ok u => cases u; exact ih st1 hstep
    | error err => simpa using hstep

theorem stepEmail_benign (b : Behavior) (hcb : cbBenign b) (e : Email)
    (st : LoopSt) :
    (stepEmail b e st).2 = .ok () ∧
    (stepEmail b e st).1.succ
      = st.succ + (if isErrE (b.migrateEmail e) then 0 else 1) ∧
    (stepEmail b e st).1.fail
      = st.fail + (if isErrE (b.migrateEmail e) then 1 else 0) ∧
    (stepEmail b e st).1.failedIds
      = st.failedIds ++ (if isErrE (b.migrateEmail e) then [e.id] else []) ∧
    (stepEmail b e st).1.trace.filter isMigrateEv
      = st.trace.filter isMigrateEv ++ [Ev.migrateEmail e.id] := by
  cases hc : b.callback with
  | none =>
    simp only [stepEmail, runCb, hc]
    cases hme : b.migrateEmail e with
    | ok u => cases u; simp [isErrE, List.filter_append, isMigrateEv]
    | error err => simp [isErrE, List.filter_append, isMigrateEv]
  | some f =>
    have h0 := hcb f hc
    simp only [stepEmail, runCb, hc, h0]
    cases hme : b.migrateEmail e with
    | ok u => cases u; simp [isErrE, List.filter_append, isMigrateEv]
    | error err => simp [isErrE, List.filter_append, isMigrateEv]

theorem migrateLoop_benign (b : Behavior) (hcb : cbBenign b) :
    ∀ (emails : List Email) (st : LoopSt),
    (migrateLoop b emails st).2 = .ok () ∧
    (migrateLoop b emails st).1.succ
      = st.succ + emails.countP (fun e => !isErrE (b.migrateEmail e)) ∧
    (migrateLoop b emails st).1.fail
      = st.fail + emails.countP (fun e => isErrE (b.migrateEmail e)) ∧
    (migrateLoop b emails st).1.failedIds
      = st.failedIds ++ emails.filterMap (failId b) ∧
    (migrateLoop b emails st).1.trace.filter isMigrateEv
      = st.trace.filter isMigrateEv
        ++ emails.map (fun e => Ev.migrateEmail e.id) := by
  intro emails
  induction emails with
  | nil => intro st; simp [migrateLoop]
  | cons e rest ih =>
    intro st
    obtain ⟨ho, h1, h2, h3, h4⟩ := stepEmail_benign b hcb e st
    rcases hse : stepEmail b e st with ⟨st1, r1⟩
    rw [hse] at ho h1 h2 h3 h4
    simp only at ho h1 h2 h3 h4
    subst ho
    obtain ⟨io, i1, i2, i3, i4⟩ := ih st1
    simp only [migrateLoop, hse]
    refine ⟨io, ?_, ?_, ?_, ?_⟩
    · rw [i1, h1, List.countP_cons]
      cases hE : isErrE (b.migrateEmail e) <;> simp [hE] <;> omega
    · rw [i2, h2, List.countP_cons]
      cases hE : isErrE (b.migrateEmail e) <;> simp [hE] <;> omega
    · rw [i3, h3, List.filterMap_cons]
      cases hE : isErrE (b.migrateEmail e) <;> simp [failId, hE]
    · rw [i4, h4, List.map_cons]
      simp

/-! ## C10 — Result-shape invariant of `migrate_emails_by_label` -/

theorem countP_split (p : α → Bool) (l : List α) :
    l.countP p + l.countP (fun a => !p a) = l.length := by
  induction l with
  | nil => simp
  | cons a t ih =>
    cases hpa : p a <;> simp [List.countP_cons, hpa] <;> omega

theorem migrateBodyListed_ok_shape (b : Behavior) (labelId : String)
    (tr0 : List Ev) (r : MigrationResult) (tr : List Ev)
    (h : migrateBodyListed b labelId tr0 = (.ok r, tr)) :
    r.failed_ids.length = r.failed
    ∧ (cbBenign b → r.total = r.successful + r.failed) := by
  unfold migrateBodyListed at h
  cases hl : b.listEmails with
  | error e =>
    rw [hl] at h
    simp only [Prod.mk.injEq] at h
    obtain ⟨h1, _⟩ := h
    cases h1
    exact ⟨rfl, fun _ => rfl⟩
  | ok emails =>
    simp only [hl] at h
    by_cases he : emails.isEmpty
    · rw [if_pos he] at h
      simp only [Prod.mk.injEq] at h
      obtain ⟨h1, _⟩ := h
      cases h1
      exact ⟨rfl, fun _ => rfl⟩
    · rw [if_neg he] at h
      obtain ⟨c1, c2, c3, c4⟩ := runCb_preserves b
        ⟨0, 0, [], 0, tr0 ++ [Ev.listEmails] ++ [Ev.listLabels]⟩
      rcases hr0 : runCb b
          ⟨0, 0, [], 0, tr0 ++ [Ev.listEmails] ++ [Ev.listLabels]⟩
        with ⟨st0, r0⟩
      rw [hr0] at h c1 c2 c3 c4
      simp only at c1 c2 c3 c4
      cases r0 with
      | error e0 =>
        simp only [Prod.mk.injEq] at h
        obtain ⟨h1, _⟩ := h
        cases h1
        exact ⟨rfl, fun _ => rfl⟩
      | ok u =>
        cases u
        dsimp only at h
        rcases hloop : migrateLoop b emails st0 with ⟨stF, rF⟩
        rw [hloop] at h
        cases rF with
        | error eF => simp at h
        | ok v =>
          cases v
          simp only [Prod.mk.injEq, Except.ok.injEq] at h
          obtain ⟨h1, _⟩ := h
          subst h1
          constructor
          · have hinv := migrateLoop_ids_len b emails st0 (by rw [c3, c2]; rfl)
            rw [hloop] at hinv
            simpa using hinv
          · intro hcb
            obtain ⟨_, l1, l2, _, _⟩ := migrateLoop_benign b hcb emails st0
            rw [hloop] at l1 l2
            simp only at l1 l2
            simp only [l1, l2, c1, c2]
            have := countP_split (fun e => isErrE (b.migrateEmail e)) emails
            omega

theorem migrateBody_ok_shape (b : Behavior) (labelId : String)
    (r : MigrationResult) (tr : List Ev)
    (h : migrateBody b labelId = (.ok r, tr)) :
    r.failed_ids.length = r.failed
    ∧ (cbBenign b → r.total = r.successful + r.failed) := by
  unfold migrateBody at h
  cases hm : pyGet b.mapping0 labelId with
  | some fid =>
    rw [hm] at h
    dsimp only at h
    exact migrateBodyListed_ok_shape b labelId [] r tr h
  | none =>
    rw [hm] at h
    dsimp only at h
    cases hrec : b.reconcile with
    | error e => rw [hrec] at h; simp at h
    | ok m2 =>
      rw [hrec] at h
      dsimp only at h
      cases hm2 : pyGet m2 labelId with
      | none =>
        rw [hm2] at h
        simp only [Prod.mk.injEq, Except.ok.injEq] at h
        obtain ⟨h1, _⟩ := h
        subst h1
        exact ⟨rfl, fun _ => rfl⟩
      | some fid =>
        rw [hm2] at h
        dsimp only at h
        exact migrateBodyListed_ok_shape b labelId [Ev.reconcile] r tr h

/-- C10 amended: `migrate_emails_by_label` always returns (never raises) a
result with exactly the keys `total/successful/failed/failed_ids` and with
`len(failed_ids) = failed`; the identity `total = successful + failed`
additionally holds whenever the status callback never raises.  (When the
callback raises during the success-progress update of a message, that
message is counted both successful and failed, so the sum identity fails —
see the counterexample.) -/
theorem migrate_result_shape (b : Behavior) (labelId : String) :
    (migrate_emails_by_label b labelId).1.failed_ids.length
      = (migrate_emails_by_label b labelId).1.failed
    ∧ (cbBenign b →
        (migrate_emails_by_label b labelId).1.total
          = (migrate_emails_by_label b labelId).1.successful
            + (migrate_emails_by_label b labelId).1.failed) := by
  unfold migrate_emails_by_label
  rcases hb : migrateBody b labelId with ⟨res, tr⟩
  cases res with
  | error e => exact ⟨rfl, fun _ => rfl⟩
  | ok r => exact migrateBody_ok_shape b labelId r tr hb

/-- C10 amended witness: a concrete benign-callback behaviour. -/
def shapeWitnessBehavior : Behavior where
  mapping0 := fun _ => some "F1"
  reconcile := .ok fun _ => none
  listEmails := .ok [⟨"m1"⟩, ⟨"m2"⟩]
  listLabels := .ok []
  migrateEmail := fun e => if e.id = "m2" then .error Err.other else .ok ()
  callback := none

theorem migrate_result_shape_witness :
    (migrate_emails_by_label shapeWitnessBehavior "L").1.failed_ids.length
      = (migrate_emails_by_label shapeWitnessBehavior "L").1.failed
    ∧ (cbBenign shapeWitnessBehavior →
        (migrate_emails_by_label shapeWitnessBehavior "L").1.total
          = (migrate_emails_by_label shapeWitnessBehavior "L").1.successful
            + (migrate_emails_by_label shapeWitnessBehavior "L").1.failed) :=
  migrate_result_shape shapeWitnessBehavior "L"

/-- The behaviour refuting the unconditional result-shape claim: one email
whose transfer succeeds, with a status callback that raises on its third
invocation (the success-progress update) and succeeds on all others. -/
def shapeCexBehavior : Behavior where
  mapping0 := fun _ => some "F1"
  reconcile := .ok fun _ => none
  listEmails := .ok [⟨"m1"⟩]
  listLabels := .ok []
  migrateEmail := fun _ => .ok ()
  callback := some fun n => if n = 2 then .error Err.other else .ok ()

/-- C10 counterexample: with the callback raising during the
success-progress update, the single successfully transferred message is also
counted as failed, so the returned result is
`{total: 1, successful: 1, failed: 1, failed_ids: ["m1"]}` and
`total = successful + failed` fails. -/
theorem migrate_result_shape_cex :
    (migrate_emails_by_label shapeCexBehavior "L").1
        = ⟨1, 1, 1, ["m1"]⟩
    ∧ (migrate_emails_by_label shapeCexBehavior "L").1.total
        ≠ (migrate_emails_by_label shapeCexBehavior "L").1.successful
          + (migrate_emails_by_label shapeCexBehavior "L").1.failed := by
  constructor
  · rfl
  · decide

/-! ## C4 — Unmapped label is skipped, not fatal -/

/-- C4: when the label id is unmapped, `migrate_emails_by_label` re-invokes
reconciliation exactly once; if the label is still unmapped it returns the
zero result without listing or migrating any message, invoking the callback,
or raising: the complete event trace is the single reconciliation. -/
theorem migrate_emails_by_label_unmapped_skip (b : Behavior)
    (labelId : String) (m2 : String → Option String)
    (h0 : pyGet b.mapping0 labelId = none)
    (hrec : b.reconcile = .ok m2)
    (h2 : pyGet m2 labelId = none) :
    migrate_emails_by_label b labelId = (zeroResult, [Ev.reconcile]) := by
  unfold migrate_emails_by_label migrateBody
  rw [h0]
  dsimp only
  rw [hrec]
  dsimp only
  rw [h2]

/-- C4 witness: a concrete behaviour whose mapping misses the label both
before and after reconciliation. -/
def unmappedBehavior : Behavior where
  mapping0 := fun _ => none
  reconcile := .ok fun _ => some ""
  listEmails := .ok [⟨"m1"⟩]
  listLabels := .ok []
  migrateEmail := fun _ => .ok ()
  callback := none

theorem migrate_emails_by_label_unmapped_skip_witness :
    migrate_emails_by_label unmappedBehavior "Label_7"
      = (zeroResult, [Ev.reconcile]) :=
  migrate_emails_by_label_unmapped_skip unmappedBehavior "Label_7"
    (fun _ => some "") rfl rfl rfl

/-! ## C1 — Per-message isolation -/

theorem migrateBodyListed_benign (b : Behavior) (labelId : String)
    (tr0 : List Ev) (emails : List Email)
    (hcb : cbBenign b) (hlist : b.listEmails = .ok emails)
    (hne : emails.isEmpty = false) :
    (migrateBodyListed b labelId tr0).1
      = .ok { total := emails.length,
              successful :=
                emails.countP (fun e => !isErrE (b.migrateEmail e)),
              failed := emails.countP (fun e => isErrE (b.migrateEmail e)),
              failed_ids := emails.filterMap (failId b) }
    ∧ (migrateBodyListed b labelId tr0).2.filter isMigrateEv
      = (tr0 ++ [Ev.listEmails] ++ [Ev.listLabels]).filter isMigrateEv
        ++ emails.map (fun e => Ev.migrateEmail e.id) := by
  unfold migrateBodyListed
  rw [hlist]
  dsimp only
  rw [hne]
  simp only [Bool.false_eq_true, if_false]
  obtain ⟨c1, c2, c3, c4⟩ := runCb_preserves b
    ⟨0, 0, [], 0, tr0 ++ [Ev.listEmails] ++ [Ev.listLabels]⟩
  have hok := runCb_ok b hcb
    ⟨0, 0, [], 0, tr0 ++ [Ev.listEmails] ++ [Ev.listLabels]⟩
  rcases hr0 : runCb b
      ⟨0, 0, [], 0, tr0 ++ [Ev.listEmails] ++ [Ev.listLabels]⟩
    with ⟨st0, r0⟩
  rw [hr0] at c1 c2 c3 c4 hok
  simp only at c1 c2 c3 c4 hok
  subst hok
  dsimp only
  obtain ⟨lo, l1, l2, l3, l4⟩ := migrateLoop_benign b hcb emails st0
  rcases hloop : migrateLoop b emails st0 with ⟨stF, rF⟩
  rw [hloop] at lo l1 l2 l3 l4
  simp only at lo l1 l2 l3 l4
  subst lo
  dsimp only
  constructor
  · rw [l1, l2, l3, c1, c2, c3]
    simp
  · rw [l4, c4]

/-- C1: when the label resolves, the listing returns the batch
`pre ++ bad :: post`, every transfer except `bad`'s succeeds, `bad`'s
transfer raises, and the status callback never raises, the result is
`total = N, successful = N - 1, failed = 1` with the failing id appearing
exactly once in `failed_ids`; the exception does not escape and every
message of the batch is still attempted (the trace carries a
`migrate_email` event for each). -/
theorem migrate_emails_by_label_isolation
    (b : Behavior) (labelId fid : String) (pre post : List Email)
    (bad : Email) (err : Err)
    (hmap : pyGet b.mapping0 labelId = some fid)
    (hlist : b.listEmails = .ok (pre ++ bad :: post))
    (hcb : cbBenign b)
    (hpre : ∀ e ∈ pre, b.migrateEmail e = .ok ())
    (hpost : ∀ e ∈ post, b.migrateEmail e = .ok ())
    (hbad : b.migrateEmail bad = .error err) :
    (migrate_emails_by_label b labelId).1.total
        = pre.length + post.length + 1
    ∧ (migrate_emails_by_label b labelId).1.successful
        = pre.length + post.length
    ∧ (migrate_emails_by_label b labelId).1.failed = 1
    ∧ (migrate_emails_by_label b labelId).1.failed_ids = [bad.id]
    ∧ (migrate_emails_by_label b labelId).1.failed_ids.count bad.id = 1
    ∧ (migrate_emails_by_label b labelId).2.filter isMigrateEv
        = (pre ++ bad :: post).map (fun e => Ev.migrateEmail e.id) := by
  have hne : (pre ++ bad :: post).isEmpty = false := by
    cases pre <;> rfl
  obtain ⟨hres, htr⟩ := migrateBodyListed_benign b labelId []
    (pre ++ bad :: post) hcb hlist hne
  have hcErr : (pre ++ bad :: post).countP
      (fun e => isErrE (b.migrateEmail e)) = 1 := by
    rw [List.countP_append, List.countP_cons]
    have h1 : pre.countP (fun e => isErrE (b.migrateEmail e)) = 0 :=
      List.countP_eq_zero.mpr (fun a ha => by simp [isErrE, hpre a ha])
    have h2 : post.countP (fun e => isErrE (b.migrateEmail e)) = 0 :=
      List.countP_eq_zero.mpr (fun a ha => by simp [isErrE, hpost a ha])
    have h3 : isErrE (b.migrateEmail bad) = true := by rw [hbad]; rfl
    rw [h1, h2, h3]
    simp
  have hcOk : (pre ++ bad :: post).countP
      (fun e => !isErrE (b.migrateEmail e)) = pre.length + post.length := by
    rw [List.countP_append, List.countP_cons]
    have h1 : pre.countP (fun e => !isErrE (b.migrateEmail e))
        = pre.length :=
      List.countP_eq_length.mpr (fun a ha => by simp [isErrE, hpre a ha])
    have h2 : post.countP (fun e => !isErrE (b.migrateEmail e))
        = post.length :=
      List.countP_eq_length.mpr (fun a ha => by simp [isErrE, hpost a ha])
    have h3 : (!isErrE (b.migrateEmail bad)) = false := by rw [hbad]; rfl
    rw [h1, h2, h3]
    simp
  have hids : (pre ++ bad :: post).filterMap (failId b) = [bad.id] := by
    rw [List.filterMap_append, List.filterMap_cons]
    have h1 : pre.filterMap (failId b) = [] :=
      List.filterMap_eq_nil.mpr
        (fun a ha => by simp [failId, isErrE, hpre a ha])
    have h2 : post.filterMap (failId b) = [] :=
      List.filterMap_eq_nil.mpr
        (fun a ha => by simp [failId, isErrE, hpost a ha])
    have h3 : failId b bad = some bad.id := by
      simp [failId, isErrE, hbad]
    simp [h1, h2, h3]
  unfold migrate_emails_by_label migrateBody
  rw [hmap]
  dsimp only
  rcases hbody : migrateBodyListed b labelId [] with ⟨res, tr⟩
  rw [hbody] at hres htr
  simp only at hres htr
  subst hres
  dsimp only
  rw [hcErr, hcOk, hids] at *
  refine ⟨?_, rfl, rfl, rfl, by simp, ?_⟩
  · simp only [List.length_append, List.length_cons]
    omega
  · rw [htr]
    simp [isMigrateEv]

/-- A concrete behaviour for the C1 witness: three emails, the middle one's
transfer raises, no status callback. -/
def isolationWitnessBehavior : Behavior where
  mapping0 := fun _ => some "F1"
  reconcile := .ok fun _ => none
  listEmails := .ok [⟨"m1"⟩, ⟨"m2"⟩, ⟨"m3"⟩]
  listLabels := .ok []
  migrateEmail := fun e => if e.id = "m2" then .error Err.other else .ok ()
  callback := none

theorem migrate_emails_by_label_isolation_witness :
    (migrate_emails_by_label isolationWitnessBehavior "L").1.total
        = [Email.mk "m1"].length + [Email.mk "m3"].length + 1
    ∧ (migrate_emails_by_label isolationWitnessBehavior "L").1.successful
        = [Email.mk "m1"].length + [Email.mk "m3"].length
    ∧ (migrate_emails_by_label isolationWitnessBehavior "L").1.failed = 1
    ∧ (migrate_emails_by_label isolationWitnessBehavior "L").1.failed_ids
        = [(Email.mk "m2").id]
    ∧ ((migrate_emails_by_label isolationWitnessBehavior "L").1.failed_ids.count
        (Email.mk "m2").id) = 1
    ∧ (migrate_emails_by_label isolationWitnessBehavior "L").2.filter
        isMigrateEv
        = ([Email.mk "m1"] ++ Email.mk "m2" :: [Email.mk "m3"]).map
            (fun e => Ev.migrateEmail e.id) :=
  migrate_emails_by_label_isolation isolationWitnessBehavior "L" "F1"
    [⟨"m1"⟩] [⟨"m3"⟩] ⟨"m2"⟩ Err.other rfl rfl
    (fun _ h => nomatch h)
    (by intro e he; simp only [List.mem_singleton] at he; subst he; rfl)
    (by intro e he; simp only [List.mem_singleton] at he; subst he; rfl)
    rfl

/-! ## C6 — Authentication errors -/

/-- The behaviour refuting fatality of authentication errors: two emails,
the first transfer raises an authentication error, the second succeeds. -/
def authCexBehavior : Behavior where
  mapping0 := fun _ => some "F1"
  reconcile := .ok fun _ => none
  listEmails := .ok [⟨"m1"⟩, ⟨"m2"⟩]
  listLabels := .ok []
  migrateEmail := fun e => if e.id = "m1" then .error Err.auth else .ok ()
  callback := none

/-- C6 counterexample: the authentication error raised while transferring
the first message does not propagate out of `migrate_emails_by_label`: the
call returns normally with the error recorded as an ordinary per-message
failure, and the second message is still attempted (its `migrate_email`
event appears in the trace). -/
theorem auth_error_not_fatal_cex :
    migrate_emails_by_label authCexBehavior "L"
      = (⟨2, 1, 1, ["m1"]⟩,
         [Ev.listEmails, Ev.listLabels, Ev.migrateEmail "m1",
          Ev.migrateEmail "m2"]) := by
  rfl

/-- C6 amended: an authentication error raised by a per-message transfer is
caught at the message boundary like any other exception: the run is not
aborted, the message is recorded in `failed`/`failed_ids`, and every message
of the batch is still attempted. -/
theorem auth_error_recorded_as_failure
    (b : Behavior) (labelId fid : String) (emails : List Email) (bad : Email)
    (hmap : pyGet b.mapping0 labelId = some fid)
    (hlist : b.listEmails = .ok emails)
    (hcb : cbBenign b)
    (hbadmem : bad ∈ emails)
    (hbad : b.migrateEmail bad = .error Err.auth) :
    (migrate_emails_by_label b labelId).1.total = emails.length
    ∧ bad.id ∈ (migrate_emails_by_label b labelId).1.failed_ids
    ∧ 1 ≤ (migrate_emails_by_label b labelId).1.failed
    ∧ (migrate_emails_by_label b labelId).2.filter isMigrateEv
        = emails.map (fun e => Ev.migrateEmail e.id) := by
  have hne : emails.isEmpty = false := by
    cases emails with
    | nil => simp at hbadmem
    | cons x xs => rfl
  obtain ⟨hres, htr⟩ := migrateBodyListed_benign b labelId [] emails hcb
    hlist hne
  unfold migrate_emails_by_label migrateBody
  rw [hmap]
  dsimp only
  rcases hbody : migrateBodyListed b labelId [] with ⟨res, tr⟩
  rw [hbody] at hres htr
  simp only at hres htr
  subst hres
  dsimp only
  refine ⟨rfl, ?_, ?_, ?_⟩
  · exact List.mem_filterMap.mpr
      ⟨bad, hbadmem, by simp [failId, isErrE, hbad]⟩
  · have := List.countP_pos
      (p := fun e => isErrE (b.migrateEmail e)) (l := emails)
    exact this.mpr ⟨bad, hbadmem, by simp [isErrE, hbad]⟩
  · rw [htr]
    simp [isMigrateEv]

theorem auth_error_recorded_as_failure_witness :
    (migrate_emails_by_label authCexBehavior "L").1.total
        = [Email.mk "m1", Email.mk "m2"].length
    ∧ (Email.mk "m1").id
        ∈ (migrate_emails_by_label authCexBehavior "L").1.failed_ids
    ∧ 1 ≤ (migrate_emails_by_label authCexBehavior "L").1.failed
    ∧ (migrate_emails_by_label authCexBehavior "L").2.filter isMigrateEv
        = [Email.mk "m1", Email.mk "m2"].map
            (fun e => Ev.migrateEmail e.id) :=
  auth_error_recorded_as_failure authCexBehavior "L" "F1"
    [⟨"m1"⟩, ⟨"m2"⟩] ⟨"m1"⟩ rfl rfl (fun _ h => nomatch h)
    (List.mem_cons_self _ _) rfl

/-! ## Reconciliation lemmas -/

theorem mupd_same (m : FMap) (k v : String) : mupd m k v k = some v := by
  simp [mupd]

theorem mupd_other (m : FMap) (k v x : String) (h : x ≠ k) :
    mupd m k v x = m x := by
  simp [mupd, h]

theorem processSystemLabels_preserve (folders : List OFolder) :
    ∀ (labels : List GLabel) (m : FMap) (k : String),
      (∀ l ∈ labels, l.id ≠ k) →
      processSystemLabels folders labels m k = m k := by
  intro labels
  induction labels with
  | nil => intro m k _; rfl
  | cons a rest ih =>
    intro m k h
    have ha : a.id ≠ k := h a (List.mem_cons_self a rest)
    have hrest : ∀ l ∈ rest, l.id ≠ k :=
      fun l hl => h l (List.mem_cons_of_mem a hl)
    cases hms : _map_system_label_to_folder a.name folders with
    | none => simp only [processSystemLabels, hms]; exact ih m k hrest
    | some fid =>
      simp only [processSystemLabels, hms]
      by_cases hfe : fid.isEmpty = true
      · rw [if_pos hfe]
        exact ih m k hrest
      · rw [if_neg hfe]
        rw [ih (mupd m a.id fid) k hrest]
        exact mupd_other m a.id fid k (Ne.symm ha)

theorem processSystemLabels_value (folders : List OFolder) :
    ∀ (labels : List GLabel) (m : FMap) (l : GLabel), l ∈ labels →
      (labels.map (fun x => x.id)).Nodup →
      processSystemLabels folders labels m l.id
        = (match _map_system_label_to_folder l.name folders with
           | some fid => if fid.isEmpty then m l.id else some fid
           | none => m l.id) := by
  intro labels
  induction labels with
  | nil => intro m l hmem; simp at hmem
  | cons a rest ih =>
    intro m l hmem hnd
    rw [List.map_cons, List.nodup_cons] at hnd
    obtain ⟨hnotin, hndrest⟩ := hnd
    rcases List.mem_cons.mp hmem with rfl | hmem'
    · have hrest : ∀ x ∈ rest, x.id ≠ l.id := by
        intro x hx hcontra
        exact hnotin (hcontra ▸ List.mem_map_of_mem (fun y => y.id) hx)
      cases hms : _map_system_label_to_folder l.name folders with
      | none =>
        simp only [processSystemLabels, hms]
        rw [processSystemLabels_preserve folders rest m l.id hrest]
      | some fid =>
        simp only [processSystemLabels, hms]
        by_cases hfe : fid.isEmpty = true
        · rw [if_pos hfe, if_pos hfe]
          rw [processSystemLabels_preserve folders rest m l.id hrest]
        · rw [if_neg hfe, if_neg hfe]
          rw [processSystemLabels_preserve folders rest (mupd m l.id fid)
            l.id hrest]
          exact mupd_same m l.id fid
    · have hne : l.id ≠ a.id := by
        intro hcontra
        exact hnotin (hcontra ▸ List.mem_map_of_mem (fun y => y.id) hmem')
      have hstep : ∀ m2 : FMap, processSystemLabels folders rest m2 l.id
          = (match _map_system_label_to_folder l.name folders with
             | some fid => if fid.isEmpty then m2 l.id else some fid
             | none => m2 l.id) :=
        fun m2 => ih m2 l hmem' hndrest
      cases hms : _map_system_label_to_folder a.name folders with
      | none =>
        simp only [processSystemLabels, hms]
        exact hstep m
      | some fid =>
        simp only [processSystemLabels, hms]
        by_cases hfe : fid.isEmpty = true
        · rw [if_pos hfe]
          exact hstep m
        · rw [if_neg hfe]
          rw [hstep (mupd m a.id fid)]
          cases _map_system_label_to_folder l.name folders with
          | none => exact mupd_other m a.id fid l.id hne
          | some fid2 =>
            dsimp only
            by_cases hfe2 : fid2.isEmpty = true
            · rw [if_pos hfe2, if_pos hfe2]
              exact mupd_other m a.id fid l.id hne
            · rw [if_neg hfe2, if_neg hfe2]

theorem processUserLabels_preserve (cf : String → Bool)
    (folders : List OFolder) :
    ∀ (labels : List GLabel) (s : UserLoopSt) (k : String),
      (∀ l ∈ labels, l.id ≠ k) →
      (processUserLabels cf folders labels s).m k = s.m k := by
  intro labels
  induction labels with
  | nil => intro s k _; rfl
  | cons a rest ih =>
    intro s k h
    have ha : a.id ≠ k := h a (List.mem_cons_self a rest)
    have hrest : ∀ l ∈ rest, l.id ≠ k :=
      fun l hl => h l (List.mem_cons_of_mem a hl)
    show (processUserLabels cf folders rest
        (processUserLabel cf folders s a)).m k = s.m k
    rw [ih (processUserLabel cf folders s a) k hrest]
    unfold processUserLabel
    by_cases hmem : a.name ∈ s.existing
    · rw [if_pos hmem]
      cases hf : folders.find? (fun f => f.displayName = a.name) with
      | none => rfl
      | some f => exact mupd_other s.m a.id f.id k (Ne.symm ha)
    · rw [if_neg hmem]
      by_cases hcf : cf a.name
      · rw [if_pos hcf]
      · rw [if_neg hcf]
        exact mupd_other s.m a.id _ k (Ne.symm ha)

/-! ## C5 — System-label reconciliation -/

/-- C5: for every system label in a snapshot with pairwise-distinct label
ids, reconciliation gives that label exactly the entry computed by
`_map_system_label_to_folder` against the destination snapshot — the
table-translated name's first exactly-matching folder — filtered through the
source's `if outlook_folder_id:` truthiness guard, and no entry at all when
the name is outside the table or no folder matches; the remaining labels are
processed regardless.  Whenever every destination folder id is non-empty
(Python-truthy), the entry is exactly the `_map_system_label_to_folder`
result. -/
theorem system_label_reconciliation (cf : String → Bool)
    (labels : List GLabel) (ost : OutlookSt) (l : GLabel)
    (hmem : l ∈ labels) (hsys : l.type = "system")
    (hnd : (labels.map (fun x => x.id)).Nodup) :
    ((migrate_labels_to_folders cf labels ost).1 l.id
      = match _map_system_label_to_folder l.name ost.folders with
        | some fid => if fid.isEmpty then none else some fid
        | none => none)
    ∧ ((∀ f ∈ ost.folders, f.id.isEmpty = false) →
        (migrate_labels_to_folders cf labels ost).1 l.id
          = _map_system_label_to_folder l.name ost.folders) := by
  have hinj : ∀ x ∈ labels, ∀ y ∈ labels, x.id = y.id → x = y := by
    intro x hx y hy hxy
    exact List.inj_on_of_nodup_map hnd hx hy hxy
  have hmemsys : l ∈ labels.filter (fun x => x.type = "system") := by
    rw [List.mem_filter]
    exact ⟨hmem, by simp [hsys]⟩
  have hnduser : ∀ u ∈ labels.filter (fun x => x.type = "user"),
      u.id ≠ l.id := by
    intro u hu hcontra
    rw [List.mem_filter] at hu
    obtain ⟨humem, hutype⟩ := hu
    have : u = l := hinj u humem l hmem hcontra
    subst this
    simp [hsys] at hutype
  have hndsys : ((labels.filter (fun x => x.type = "system")).map
      (fun x => x.id)).Nodup := by
    refine List.Nodup.sublist ?_ hnd
    exact List.Sublist.map _ (List.filter_sublist labels)
  have hmain : (migrate_labels_to_folders cf labels ost).1 l.id
      = match _map_system_label_to_folder l.name ost.folders with
        | some fid => if fid.isEmpty then none else some fid
        | none => none := by
    unfold migrate_labels_to_folders
    dsimp only
    rw [processUserLabels_preserve cf ost.folders _ _ l.id hnduser]
    dsimp only
    rw [processSystemLabels_value ost.folders _ (fun _ => none) l hmemsys
      hndsys]
  refine ⟨hmain, fun hids => ?_⟩
  rw [hmain]
  cases hms : _map_system_label_to_folder l.name ost.folders with
  | none => rfl
  | some fid =>
    dsimp only
    unfold _map_system_label_to_folder at hms
    cases hsm : systemMapping l.name with
    | none =>
      rw [hsm] at hms
      exact absurd hms (by simp)
    | some dn =>
      rw [hsm] at hms
      dsimp only at hms
      obtain ⟨f, hfind, hfid⟩ := Option.map_eq_some'.mp hms
      have hfmem : f ∈ ost.folders := List.mem_of_find?_eq_some hfind
      have hfe : fid.isEmpty = false := by
        rw [← hfid]
        exact hids f hfmem
      rw [if_neg (by simp [hfe])]

/-- C5 witness: a snapshot with the seven-entry table exercised on `SENT`
(mapped, folder present with a non-empty id), `SPAM` (mapped, folder absent)
and `CATEGORY_SOCIAL` (absent from the table). -/
theorem system_label_reconciliation_witness :
    (migrate_labels_to_folders (fun _ => false)
        [⟨"L1", "SENT", "system"⟩, ⟨"L2", "SPAM", "system"⟩,
         ⟨"L3", "CATEGORY_SOCIAL", "system"⟩]
        ⟨[⟨"f1", "Sent Items"⟩], 0⟩).1 "L1"
      = _map_system_label_to_folder "SENT" [⟨"f1", "Sent Items"⟩] :=
  (system_label_reconciliation (fun _ => false)
    [⟨"L1", "SENT", "system"⟩, ⟨"L2", "SPAM", "system"⟩,
     ⟨"L3", "CATEGORY_SOCIAL", "system"⟩]
    ⟨[⟨"f1", "Sent Items"⟩], 0⟩ ⟨"L1", "SENT", "system"⟩
    (by simp) rfl (by decide)).2 (by decide)

/-! ## C2 — Idempotent reconciliation: counterexample -/

/-- The snapshot refuting idempotence: a system `INBOX` label and a user
label named `Inbox`, against a destination with no folders. -/
def cexLabels : List GLabel :=
  [⟨"LID_INBOX", "INBOX", "system"⟩, ⟨"LID_U", "Inbox", "user"⟩]

/-- C2 counterexample: on the first run the system label `INBOX` finds no
destination folder named `Inbox` and stays unmapped, while the user label
`Inbox` creates one; on the second run against the state the first run
produced, `INBOX` now maps to the created folder — the two runs return
different mappings. -/
theorem migrate_labels_to_folders_not_idempotent_cex :
    (migrate_labels_to_folders (fun _ => false) cexLabels ⟨[], 0⟩).1
        "LID_INBOX" = none
    ∧ (migrate_labels_to_folders (fun _ => false) cexLabels
        (migrate_labels_to_folders (fun _ => false) cexLabels
          ⟨[], 0⟩).2.1).1 "LID_INBOX" = some "created-0"
    ∧ (migrate_labels_to_folders (fun _ => false) cexLabels ⟨[], 0⟩).1
          "LID_INBOX"
        ≠ (migrate_labels_to_folders (fun _ => false) cexLabels
            (migrate_labels_to_folders (fun _ => false) cexLabels
              ⟨[], 0⟩).2.1).1 "LID_INBOX" := by
  have h1 : (migrate_labels_to_folders (fun _ => false) cexLabels
      ⟨[], 0⟩).1 "LID_INBOX" = none := rfl
  have h2 : (migrate_labels_to_folders (fun _ => false) cexLabels
      (migrate_labels_to_folders (fun _ => false) cexLabels
        ⟨[], 0⟩).2.1).1 "LID_INBOX" = some "created-0" := rfl
  refine ⟨h1, h2, ?_⟩
  rw [h1, h2]
  simp

/-! ## C2 — Idempotent reconciliation: amended -/

theorem systemMapping_mem (g n : String) (h : systemMapping g = some n) :
    n ∈ systemDisplayNames := by
  unfold systemMapping at h
  split_ifs at h <;> simp_all [systemDisplayNames]

/-- Characterization of one run of the user-label loop when every folder
creation succeeds: the destination grows by a block `created2` of folders
created for the processed labels, the name set grows accordingly, and every
processed label ends mapped to the first folder of the final folder list
bearing its name. -/
theorem processUserLabels_spec (cf : String → Bool) (S0 : List OFolder)
    (hcf : ∀ n, cf n = false) :
    ∀ (usr : List GLabel) (s : UserLoopSt) (created : List OFolder),
      s.ost.folders = S0 ++ created →
      s.existing = S0.map (fun f => f.displayName)
        ++ created.map (fun f => f.displayName) →
      (∀ l ∈ usr, l.name ∉ created.map (fun f => f.displayName)) →
      (usr.map (fun x => x.name)).Nodup →
      (usr.map (fun x => x.id)).Nodup →
      ∃ created2 : List OFolder,
        (processUserLabels cf S0 usr s).ost.folders
            = S0 ++ created ++ created2
        ∧ (processUserLabels cf S0 usr s).existing
            = S0.map (fun f => f.displayName)
              ++ (created ++ created2).map (fun f => f.displayName)
        ∧ (∀ f ∈ created2, f.displayName ∈ usr.map (fun x => x.name))
        ∧ (∀ l ∈ usr, l.name
            ∈ (S0 ++ created ++ created2).map (fun f => f.displayName))
        ∧ (∀ l ∈ usr, (processUserLabels cf S0 usr s).m l.id
            = ((S0 ++ created ++ created2).find?
                (fun f => f.displayName = l.name)).map (fun f => f.id)) := by
  intro usr
  induction usr with
  | nil =>
    intro s created hA hB _ _ _
    exact ⟨[], by simpa [processUserLabels] using hA,
      by simpa [processUserLabels] using hB,
      by simp, by simp, by simp⟩
  | cons l rest ih =>
    intro s created hA hB hD hnn hni
    rw [List.map_cons, List.nodup_cons] at hnn hni
    obtain ⟨hnn1, hnn2⟩ := hnn
    obtain ⟨hni1, hni2⟩ := hni
    have hDl : l.name ∉ created.map (fun f => f.displayName) :=
      hD l (List.mem_cons_self l rest)
    have hDrest : ∀ x ∈ rest,
        x.name ∉ created.map (fun f => f.displayName) :=
      fun x hx => hD x (List.mem_cons_of_mem l hx)
    have hstep : processUserLabels cf S0 (l :: rest) s
        = processUserLabels cf S0 rest (processUserLabel cf S0 s l) := rfl
    have hrestid : ∀ x ∈ rest, x.id ≠ l.id := by
      intro x hx hcontra
      exact hni1 (hcontra ▸ List.mem_map_of_mem (fun y => y.id) hx)
    by_cases hmem : l.name ∈ s.existing
    · -- found path: the label's name is already a destination folder name
      have hbn : l.name ∈ S0.map (fun f => f.displayName) := by
        rw [hB] at hmem
        rcases List.mem_append.mp hmem with h | h
        · exact h
        · exact absurd h hDl
      obtain ⟨f0, hf0mem, hf0n⟩ := List.mem_map.mp hbn
      rcases hf : S0.find? (fun f => f.displayName = l.name) with _ | f1
      · exfalso
        have := List.find?_eq_none.mp hf f0 hf0mem
        simp [hf0n] at this
      · have hs' : processUserLabel cf S0 s l
            = { s with m := mupd s.m l.id f1.id } := by
          unfold processUserLabel
          rw [if_pos hmem, hf]
        rw [hstep, hs']
        obtain ⟨created2, c1, c2, c3, c4, c5⟩ :=
          ih { s with m := mupd s.m l.id f1.id } created hA hB hDrest
            hnn2 hni2
        refine ⟨created2, c1, c2, ?_, ?_, ?_⟩
        · intro f hf2
          exact List.mem_cons_of_mem _ (c3 f hf2)
        · intro x hx
          rcases List.mem_cons.mp hx with rfl | hx'
          · rw [List.map_append, List.map_append]
            exact List.mem_append_left _ (List.mem_append_left _ hbn)
          · exact c4 x hx'
        · intro x hx
          rcases List.mem_cons.mp hx with rfl | hx'
          · rw [processUserLabels_preserve cf S0 rest _ x.id hrestid]
            have hfind : (S0 ++ created ++ created2).find?
                (fun f => f.displayName = x.name) = some f1 := by
              rw [List.append_assoc]
              exact find?_append_some hf
            rw [hfind]
            exact mupd_same s.m x.id f1.id
          · exact c5 x hx'
    · -- create path: a new folder is created for the label
      have hcfl : cf l.name = false := hcf l.name
      have hnbn : l.name ∉ S0.map (fun f => f.displayName) := by
        intro hcontra
        exact hmem (hB ▸ List.mem_append_left _ hcontra)
      have hs' : processUserLabel cf S0 s l
          = { m := mupd s.m l.id (newFolderId s.ost.nextId),
              existing := s.existing ++ [l.name],
              ost := ⟨s.ost.folders ++ [OFolder.mk (newFolderId s.ost.nextId) l.name],
                      s.ost.nextId + 1⟩,
              creates := s.creates + 1 } := by
        unfold processUserLabel
        rw [if_neg hmem, if_neg (by simp [hcfl])]
      rw [hstep, hs']
      have hD' : ∀ x ∈ rest, x.name
          ∉ (created ++ [OFolder.mk (newFolderId s.ost.nextId) l.name]).map
              (fun f => f.displayName) := by
        intro x hx
        rw [List.map_append]
        intro hcontra
        rcases List.mem_append.mp hcontra with h | h
        · exact hDrest x hx h
        · simp only [List.map_cons, List.map_nil,
            List.mem_singleton] at h
          exact hnn1 (h ▸ List.mem_map_of_mem (fun y => y.name) hx)
      obtain ⟨created2, c1, c2, c3, c4, c5⟩ :=
        ih { m := mupd s.m l.id (newFolderId s.ost.nextId),
             existing := s.existing ++ [l.name],
             ost := ⟨s.ost.folders ++ [OFolder.mk (newFolderId s.ost.nextId) l.name],
                     s.ost.nextId + 1⟩,
             creates := s.creates + 1 }
          (created ++ [OFolder.mk (newFolderId s.ost.nextId) l.name])
          (by simp [hA]) (by simp [hB]) hD' hnn2 hni2
      have hassoc : S0 ++ (created ++ [⟨newFolderId s.ost.nextId,
          l.name⟩]) ++ created2
          = S0 ++ created
            ++ (OFolder.mk (newFolderId s.ost.nextId) l.name :: created2) := by
        simp
      refine ⟨OFolder.mk (newFolderId s.ost.nextId) l.name :: created2,
        by rw [c1, hassoc], by rw [c2]; simp, ?_, ?_, ?_⟩
      · intro f hf2
        rcases List.mem_cons.mp hf2 with rfl | hf2'
        · exact List.mem_cons_self _ _
        · exact List.mem_cons_of_mem _ (c3 f hf2')
      · intro x hx
        rcases List.mem_cons.mp hx with rfl | hx'
        · rw [List.map_append]
          refine List.mem_append_right _ ?_
          rw [List.map_cons]
          exact List.mem_cons_self _ _
        · have := c4 x hx'
          rwa [hassoc] at this
      · intro x hx
        rcases List.mem_cons.mp hx with rfl | hx'
        · rw [processUserLabels_preserve cf S0 rest _ x.id hrestid]
          have hfS0 : S0.find? (fun f => f.displayName = x.name)
              = none := by
            apply List.find?_eq_none.mpr
            intro f hfmem
            simp only [decide_eq_true_eq]
            intro hcontra
            exact hnbn (hcontra ▸
              List.mem_map_of_mem (fun y => y.displayName) hfmem)
          have hfC : created.find? (fun f => f.displayName = x.name)
              = none := by
            apply List.find?_eq_none.mpr
            intro f hfmem
            simp only [decide_eq_true_eq]
            intro hcontra
            exact hDl (hcontra ▸
              List.mem_map_of_mem (fun y => y.displayName) hfmem)
          have hfind : (S0 ++ created
              ++ (OFolder.mk (newFolderId s.ost.nextId) x.name :: created2)).find?
                (fun f => f.displayName = x.name)
              = some (OFolder.mk (newFolderId s.ost.nextId) x.name) := by
            rw [find?_append_none (by rw [find?_append_none hfS0, hfC])]
            simp [List.find?_cons]
          rw [hfind]
          exact mupd_same s.m x.id (newFolderId s.ost.nextId)
        · have := c5 x hx'
          rwa [hassoc] at this

/-- Characterization of a run of the user-label loop in which every label's
name is already a destination folder name: nothing is created, the state is
untouched, and every label maps to the first matching folder of the
snapshot. -/
theorem processUserLabels_found (cf : String → Bool) (S1 : List OFolder) :
    ∀ (usr : List GLabel) (s : UserLoopSt),
      (∀ l ∈ usr, l.name ∈ S1.map (fun f => f.displayName)) →
      s.existing = S1.map (fun f => f.displayName) →
      (usr.map (fun x => x.id)).Nodup →
      (processUserLabels cf S1 usr s).existing = s.existing
      ∧ (processUserLabels cf S1 usr s).ost = s.ost
      ∧ (processUserLabels cf S1 usr s).creates = s.creates
      ∧ (∀ l ∈ usr, (processUserLabels cf S1 usr s).m l.id
          = (S1.find? (fun f => f.displayName = l.name)).map
              (fun f => f.id)) := by
  intro usr
  induction usr with
  | nil => intro s _ _ _; exact ⟨rfl, rfl, rfl, by simp⟩
  | cons l rest ih =>
    intro s hall hex hni
    rw [List.map_cons, List.nodup_cons] at hni
    obtain ⟨hni1, hni2⟩ := hni
    have hrestid : ∀ x ∈ rest, x.id ≠ l.id := by
      intro x hx hcontra
      exact hni1 (hcontra ▸ List.mem_map_of_mem (fun y => y.id) hx)
    have hbn : l.name ∈ S1.map (fun f => f.displayName) :=
      hall l (List.mem_cons_self l rest)
    obtain ⟨f0, hf0mem, hf0n⟩ := List.mem_map.mp hbn
    rcases hf : S1.find? (fun f => f.displayName = l.name) with _ | f1
    · exfalso
      have := List.find?_eq_none.mp hf f0 hf0mem
      simp [hf0n] at this
    · have hmem : l.name ∈ s.existing := by rw [hex]; exact hbn
      have hs' : processUserLabel cf S1 s l
          = { s with m := mupd s.m l.id f1.id } := by
        unfold processUserLabel
        rw [if_pos hmem, hf]
      have hstep : processUserLabels cf S1 (l :: rest) s
          = processUserLabels cf S1 rest (processUserLabel cf S1 s l) := rfl
      rw [hstep, hs']
      obtain ⟨c1, c2, c3, c4⟩ := ih { s with m := mupd s.m l.id f1.id }
        (fun x hx => hall x (List.mem_cons_of_mem l hx)) hex hni2
      refine ⟨c1, c2, c3, ?_⟩
      intro x hx
      rcases List.mem_cons.mp hx with rfl | hx'
      · rw [processUserLabels_preserve cf S1 rest _ x.id hrestid, hf]
        exact mupd_same s.m x.id f1.id
      · exact c4 x hx'

/-- One run of `migrate_labels_to_folders`, written out as the user-label
loop applied after the system-label loop. -/
theorem migrate_labels_to_folders_eq (cf : String → Bool)
    (labels : List GLabel) (ost : OutlookSt) :
    migrate_labels_to_folders cf labels ost
      = ((processUserLabels cf ost.folders
            (labels.filter (fun l => l.type = "user"))
            ⟨processSystemLabels ost.folders
                (labels.filter (fun l => l.type = "system")) (fun _ => none),
              ost.folders.map (fun f => f.displayName), ost, 0⟩).m,
         (processUserLabels cf ost.folders
            (labels.filter (fun l => l.type = "user"))
            ⟨processSystemLabels ost.folders
                (labels.filter (fun l => l.type = "system")) (fun _ => none),
              ost.folders.map (fun f => f.displayName), ost, 0⟩).ost,
         (processUserLabels cf ost.folders
            (labels.filter (fun l => l.type = "user"))
            ⟨processSystemLabels ost.folders
                (labels.filter (fun l => l.type = "system")) (fun _ => none),
              ost.folders.map (fun f => f.displayName), ost, 0⟩).creates) :=
  rfl

/-- C2 amended: with pairwise-distinct label ids, pairwise-distinct user
label names none of which is one of the seven system display names, and
every folder creation succeeding, running `migrate_labels_to_folders` twice
yields the same mapping both times, and the second run performs zero
`create_folder` calls and leaves the destination state unchanged. -/
theorem migrate_labels_to_folders_idempotent_amended
    (cf : String → Bool) (labels : List GLabel) (st0 : OutlookSt)
    (hcf : ∀ n, cf n = false)
    (hid : (labels.map (fun x => x.id)).Nodup)
    (hun : ((labels.filter (fun l => l.type = "user")).map
        (fun x => x.name)).Nodup)
    (hsysname : ∀ l ∈ labels, l.type = "user" →
        l.name ∉ systemDisplayNames) :
    (∀ k, (migrate_labels_to_folders cf labels
        (migrate_labels_to_folders cf labels st0).2.1).1 k
      = (migrate_labels_to_folders cf labels st0).1 k)
    ∧ (migrate_labels_to_folders cf labels
        (migrate_labels_to_folders cf labels st0).2.1).2.2 = 0
    ∧ (migrate_labels_to_folders cf labels
        (migrate_labels_to_folders cf labels st0).2.1).2.1
      = (migrate_labels_to_folders cf labels st0).2.1 := by
  have husr_id : ((labels.filter (fun l => l.type = "user")).map
      (fun x => x.id)).Nodup :=
    List.Nodup.sublist (List.Sublist.map _ (List.filter_sublist labels)) hid
  have hsys_id : ((labels.filter (fun l => l.type = "system")).map
      (fun x => x.id)).Nodup :=
    List.Nodup.sublist (List.Sublist.map _ (List.filter_sublist labels)) hid
  obtain ⟨C, hF1, hE1, hCnames, hpresent, hmap1⟩ :=
    processUserLabels_spec cf st0.folders hcf
      (labels.filter (fun l => l.type = "user"))
      ⟨processSystemLabels st0.folders
          (labels.filter (fun l => l.type = "system")) (fun _ => none),
        st0.folders.map (fun f => f.displayName), st0, 0⟩
      [] (by simp) (by simp) (by simp) hun husr_id
  rw [show st0.folders ++ [] ++ C = st0.folders ++ C by simp]
    at hF1 hpresent hmap1
  rw [migrate_labels_to_folders_eq cf labels st0]
  dsimp only
  rw [migrate_labels_to_folders_eq cf labels _]
  dsimp only
  rw [hF1]
  obtain ⟨g1, g2, g3, g4⟩ :=
    processUserLabels_found cf (st0.folders ++ C)
      (labels.filter (fun l => l.type = "user"))
      ⟨processSystemLabels (st0.folders ++ C)
          (labels.filter (fun l => l.type = "system")) (fun _ => none),
        (st0.folders ++ C).map (fun f => f.displayName),
        (processUserLabels cf st0.folders
          (labels.filter (fun l => l.type = "user"))
          ⟨processSystemLabels st0.folders
              (labels.filter (fun l => l.type = "system")) (fun _ => none),
            st0.folders.map (fun f => f.displayName), st0, 0⟩).ost, 0⟩
      hpresent rfl husr_id
  refine ⟨?_, g3, g2⟩
  intro k
  by_cases hk : ∃ l, l ∈ labels.filter (fun x => x.type = "user")
      ∧ l.id = k
  · obtain ⟨l, hl, rfl⟩ := hk
    rw [g4 l hl, hmap1 l hl]
  · push_neg at hk
    rw [processUserLabels_preserve cf (st0.folders ++ C) _ _ k hk]
    rw [processUserLabels_preserve cf st0.folders _ _ k hk]
    dsimp only
    by_cases hk2 : ∃ l, l ∈ labels.filter (fun x => x.type = "system")
        ∧ l.id = k
    · obtain ⟨l, hl, rfl⟩ := hk2
      rw [processSystemLabels_value (st0.folders ++ C) _ (fun _ => none) l
        hl hsys_id]
      rw [processSystemLabels_value st0.folders _ (fun _ => none) l
        hl hsys_id]
      suffices h : _map_system_label_to_folder l.name (st0.folders ++ C)
          = _map_system_label_to_folder l.name st0.folders by
        rw [h]
      unfold _map_system_label_to_folder
      cases hsm : systemMapping l.name with
      | none => rfl
      | some dn =>
        have h2 : (st0.folders ++ C).find? (fun f => f.displayName = dn)
            = st0.folders.find? (fun f => f.displayName = dn) := by
          cases hf0 : st0.folders.find? (fun f => f.displayName = dn) with
          | some f => exact find?_append_some hf0
          | none =>
            rw [find?_append_none hf0]
            apply List.find?_eq_none.mpr
            intro f hfmem
            simp only [decide_eq_true_eq]
            intro hceq
            obtain ⟨u, hu, huname⟩ := List.mem_map.mp (hCnames f hfmem)
            rw [List.mem_filter] at hu
            obtain ⟨humem, hutype⟩ := hu
            have hdn := systemMapping_mem l.name dn hsm
            have hnot : u.name ∉ systemDisplayNames :=
              hsysname u humem (by simpa using hutype)
            exact hnot (by rw [huname, hceq]; exact hdn)
        dsimp only
        rw [h2]
    · push_neg at hk2
      rw [processSystemLabels_preserve (st0.folders ++ C) _ _ k hk2]
      rw [processSystemLabels_preserve st0.folders _ _ k hk2]

/-- The concrete snapshot for the C2 amended witness: a mapped system label
and one user label whose folder does not yet exist. -/
def demoLabels : List GLabel :=
  [⟨"L1", "INBOX", "system"⟩, ⟨"L2", "Work", "user"⟩]

theorem migrate_labels_to_folders_idempotent_amended_witness :
    ((migrate_labels_to_folders (fun _ => false) demoLabels
        (migrate_labels_to_folders (fun _ => false) demoLabels
          ⟨[⟨"f1", "Inbox"⟩], 0⟩).2.1).1 "L2"
      = (migrate_labels_to_folders (fun _ => false) demoLabels
          ⟨[⟨"f1", "Inbox"⟩], 0⟩).1 "L2")
    ∧ (migrate_labels_to_folders (fun _ => false) demoLabels
        (migrate_labels_to_folders (fun _ => false) demoLabels
          ⟨[⟨"f1", "Inbox"⟩], 0⟩).2.1).2.2 = 0
    ∧ (migrate_labels_to_folders (fun _ => false) demoLabels
        (migrate_labels_to_folders (fun _ => false) demoLabels
          ⟨[⟨"f1", "Inbox"⟩], 0⟩).2.1).2.1
      = (migrate_labels_to_folders (fun _ => false) demoLabels
          ⟨[⟨"f1", "Inbox"⟩], 0⟩).2.1 :=
  ⟨(migrate_labels_to_folders_idempotent_amended (fun _ => false) demoLabels
      ⟨[⟨"f1", "Inbox"⟩], 0⟩ (fun _ => rfl) (by decide) (by decide)
      (by decide)).1 "L2",
   (migrate_labels_to_folders_idempotent_amended (fun _ => false) demoLabels
      ⟨[⟨"f1", "Inbox"⟩], 0⟩ (fun _ => rfl) (by decide) (by decide)
      (by decide)).2.1,
   (migrate_labels_to_folders_idempotent_amended (fun _ => false) demoLabels
      ⟨[⟨"f1", "Inbox"⟩], 0⟩ (fun _ => rfl) (by decide) (by decide)
      (by decide)).2.2⟩

end GmailMigrator
